import Mathlib

/-!
Shallow embedding of the HoldemHQ Texas Hold'em engine core
(src/core/cards.py, evaluator.py, player.py, betting.py, game.py)
and verification of the frozen claims about it.

Cards are rank-suit pairs; ranks are indices 0..12 into "23456789TJQKA"
(as produced by `Card.__abs__`), suits are indices 0..3 into "shdc".
Python's unbounded nonnegative ints are modelled by `Nat`; `max(0, a - b)`
on nonnegative ints coincides with truncated subtraction `a - b` on `Nat`.
-/

namespace HoldemHQ

/-- A playing card as used by the evaluator: `rank` is the index into
`Card.RANKS = "23456789TJQKA"` (the value of Python `abs(card)`), `suit` the
index into `Card.SUITS = "shdc"`. -/
structure Card where
  rank : Nat
  suit : Nat
deriving DecidableEq

/-- A card of the 52-card deck: rank index below 13, suit index below 4. -/
def Card.valid (c : Card) : Prop := c.rank ≤ 12 ∧ c.suit ≤ 3

instance (c : Card) : Decidable c.valid := by
  unfold Card.valid
  infer_instance

/-- Python `sorted(ranks, reverse=True)` on a list of rank indices. -/
def sortDesc (l : List Nat) : List Nat :=
  List.insertionSort (fun a b => b ≤ a) l

/-- Python `sorted(levels)` (ascending). -/
def sortAsc (l : List Nat) : List Nat :=
  List.insertionSort (fun a b => a ≤ b) l

/-- Structural worker for `uniqueKeys`: keep the first occurrence of every
element not already seen. -/
def uniqueKeysAux (seen : List Nat) : List Nat → List Nat
  | [] => []
  | x :: xs =>
      if x ∈ seen then uniqueKeysAux seen xs
      else x :: uniqueKeysAux (x :: seen) xs

/-- The distinct elements of `l` in order of first appearance: the key set of
Python `Counter(l)` in its iteration order, and the carrier of `set(l)`. -/
def uniqueKeys (l : List Nat) : List Nat :=
  uniqueKeysAux [] l

/-- Inner sum of `_build_score`: `Σ component_i * 100^(5-i)` starting at
index `i`. -/
def buildScoreAux : Nat → List Nat → Nat
  | _, [] => 0
  | i, c :: cs => c * 100 ^ (5 - i) + buildScoreAux (i + 1) cs

/-- `_build_score(hand_type, components)` from evaluator.py. -/
def buildScore (hand_type : Nat) (components : List Nat) : Nat :=
  hand_type * 100000000000 + buildScoreAux 0 components

/-- The regular-straight scan of `_get_straight_high`: on the descending list
of distinct ranks, return the first window head `u_i` with `u_i - u_(i+4) = 4`. -/
def straightScan : List Nat → Option Nat
  | a :: b :: c :: d :: e :: rest =>
      if a - e = 4 then some a else straightScan (b :: c :: d :: e :: rest)
  | _ => none

/-- `_get_straight_high(ranks)` from evaluator.py: the high rank of the best
straight in `ranks`, recognising the wheel A-2-3-4-5 as a 5-high straight. -/
def getStraightHigh (ranks : List Nat) : Option Nat :=
  let u := sortDesc (uniqueKeys ranks)
  match straightScan u with
  | some h => some h
  | none => if ([12, 0, 1, 2, 3].all (fun r => decide (r ∈ u))) then some 3 else none

/-- Python `count in count_frequencies`: some rank occurs exactly `c` times. -/
def countFreqHas (ranks : List Nat) (c : Nat) : Bool :=
  (uniqueKeys ranks).any (fun r => ranks.count r = c)

/-- Python `count_frequencies[2]`: how many distinct ranks occur exactly twice. -/
def countFreq2 (ranks : List Nat) : Nat :=
  ((uniqueKeys ranks).filter (fun r => ranks.count r = 2)).length

/-- `_get_rank_with_count(rank_counts, count)`: the first key of the rank
counter (first appearance in the descending rank list) with that frequency. -/
def rankWithCount (ranks : List Nat) (c : Nat) : Nat :=
  (((uniqueKeys ranks).filter (fun r => ranks.count r = c)).headD 0)

/-- `_get_ranks_with_count(rank_counts, count)`: all such keys in counter order. -/
def ranksWithCount (ranks : List Nat) (c : Nat) : List Nat :=
  (uniqueKeys ranks).filter (fun r => ranks.count r = c)

/-- Accumulator loop of `_get_kickers`: walk `ranks`, collect ranks outside
`ex` not yet collected, stopping once `num` kickers are gathered. -/
def getKickersAux (ex : List Nat) (num : Nat) : List Nat → List Nat → List Nat
  | [], acc => acc.reverse
  | r :: rs, acc =>
    if r ∈ ex ∨ r ∈ acc then getKickersAux ex num rs acc
    else
      if num ≤ acc.length + 1 then (r :: acc).reverse
      else getKickersAux ex num rs (r :: acc)

/-- `_get_kickers(ranks, exclude_ranks, num_kickers)` from evaluator.py. -/
def getKickers (ranks ex : List Nat) (num : Nat) : List Nat :=
  getKickersAux ex num ranks []

/-- The body of `evaluate_hand` after the rank list (descending) and the
flush flag have been computed; everything else in the Python source depends
only on these two inputs. -/
def evalCore (ranks : List Nat) (is_flush : Bool) : Nat :=
  let straight_high := getStraightHigh ranks
  let is_straight := straight_high.isSome
  if is_straight && is_flush then
    buildScore 1 [12 - straight_high.getD 0]
  else if countFreqHas ranks 4 then
    let quad_rank := rankWithCount ranks 4
    let kickers := getKickers ranks [quad_rank] 1
    buildScore 2 ((12 - quad_rank) :: kickers.map (fun k => 12 - k))
  else if countFreqHas ranks 3 && countFreqHas ranks 2 then
    let trips_rank := rankWithCount ranks 3
    let pair_rank := rankWithCount ranks 2
    buildScore 3 [12 - trips_rank, 12 - pair_rank]
  else if is_flush then
    buildScore 4 ((ranks.take 5).map (fun r => 12 - r))
  else if is_straight then
    buildScore 5 [12 - straight_high.getD 0]
  else if countFreqHas ranks 3 then
    let trips_rank := rankWithCount ranks 3
    let kickers := getKickers ranks [trips_rank] 2
    buildScore 6 ((12 - trips_rank) :: kickers.map (fun k => 12 - k))
  else if 2 ≤ countFreq2 ranks then
    let pairs := sortDesc (ranksWithCount ranks 2)
    let high_pair := pairs.headD 0
    let low_pair := (pairs.drop 1).headD 0
    let kickers := getKickers ranks pairs 1
    buildScore 7 ((12 - high_pair) :: (12 - low_pair) :: kickers.map (fun k => 12 - k))
  else if countFreqHas ranks 2 then
    let pair_rank := rankWithCount ranks 2
    let kickers := getKickers ranks [pair_rank] 3
    buildScore 8 ((12 - pair_rank) :: kickers.map (fun k => 12 - k))
  else
    buildScore 9 ((ranks.take 5).map (fun r => 12 - r))

/-- `evaluate_hand(hand)` from evaluator.py.  The Python code sorts the cards
descending by rank and takes the rank and suit lists; `is_flush` is
`len(set(suits)) == 1 and len(hand) >= 5`.  All later steps use only the
sorted rank list and the flush flag, captured by `evalCore`. -/
def evaluate_hand (hand : List Card) : Nat :=
  let ranks := sortDesc (hand.map Card.rank)
  let suits := hand.map Card.suit
  let is_flush := ((uniqueKeys suits).length == 1) && (5 ≤ hand.length)
  evalCore ranks is_flush

/-! ## Player (src/core/player.py)

The `name` and `hole_cards` fields play no role in any claim and are not
modelled; all money fields are nonnegative ints, hence `Nat`. -/

/-- Player state from player.py. -/
structure Player where
  player_id : Nat
  chips : Nat
  current_bet : Nat
  total_bet_this_hand : Nat
  is_all_in : Bool
  is_folded : Bool
  is_sitting_out : Bool
deriving DecidableEq

instance : Inhabited Player := ⟨⟨0, 0, 0, 0, false, false, false⟩⟩

/-- Assertion preconditions of `Player.bet`: positive amount and the three
flag checks (not folded, not all-in, not sitting out). -/
def Player.betPre (p : Player) (amount : Nat) : Prop :=
  0 < amount ∧ p.is_folded = false ∧ p.is_all_in = false ∧ p.is_sitting_out = false

/-- Assertion preconditions of `Player.call`: not folded, not sitting out
(the nonnegativity check is vacuous over `Nat`). -/
def Player.callPre (p : Player) : Prop :=
  p.is_folded = false ∧ p.is_sitting_out = false

instance (p : Player) (amount : Nat) : Decidable (p.betPre amount) := by
  unfold Player.betPre
  infer_instance

instance (p : Player) : Decidable p.callPre := by
  unfold Player.callPre
  infer_instance

/-- The state update and return value of `Player.bet(amount)` (the body after
its assertions): move `min(amount, chips)` from the stack into the bets and
recompute the all-in flag. -/
def Player.betOp (p : Player) (amount : Nat) : Player × Nat :=
  let actual_bet := min amount p.chips
  ({ p with
      chips := p.chips - actual_bet,
      current_bet := p.current_bet + actual_bet,
      total_bet_this_hand := p.total_bet_this_hand + actual_bet,
      is_all_in := p.chips - actual_bet == 0 }, actual_bet)

/-- The state update and return value of `Player.call(call_amount)`:
`needed = max(0, call_amount - current_bet)` (truncated subtraction), move
`min(needed, chips)`. -/
def Player.callOp (p : Player) (call_amount : Nat) : Player × Nat :=
  let needed := call_amount - p.current_bet
  let actual_call := min needed p.chips
  ({ p with
      chips := p.chips - actual_call,
      current_bet := p.current_bet + actual_call,
      total_bet_this_hand := p.total_bet_this_hand + actual_call,
      is_all_in := p.chips - actual_call == 0 }, actual_call)

/-- `Player.go_all_in`: asserts not-folded and a positive stack, then calls
`bet(chips)` whose own assertions also require not-all-in and not-sitting-out.
A failed assertion is modelled as `none`. -/
def Player.goAllIn (p : Player) : Option (Player × Nat) :=
  if p.is_folded then none
  else if p.chips = 0 then none
  else if p.is_all_in then none
  else if p.is_sitting_out then none
  else some (p.betOp p.chips)

/-- `Player.can_act`. -/
def Player.canAct (p : Player) : Bool :=
  !p.is_folded && !p.is_all_in && !p.is_sitting_out

/-- `Player.has_chips`. -/
def Player.hasChips (p : Player) : Bool :=
  decide (0 < p.chips)

/-- `Player.is_active`. -/
def Player.isActive (p : Player) : Bool :=
  !p.is_folded && !p.is_sitting_out

/-! ## Betting engine (src/core/betting.py) -/

/-- `SidePot`: an amount and the player ids eligible to win it. -/
structure SidePot where
  amount : Nat
  player_indices : List Nat
deriving DecidableEq

/-- One record of the append-only betting history. -/
structure BettingAction where
  player_id : Nat
  action_type : String
  amount : Nat
  total_investment : Nat
deriving DecidableEq

/-- Lookup with default 0 in an association list, modelling
`dict.get(key, 0)` for the `player_investments` dict. -/
def lookupD (m : List (Nat × Nat)) (key : Nat) : Nat :=
  match m.find? (fun kv => kv.1 = key) with
  | some kv => kv.2
  | none => 0

/-- Overwrite (or insert) a key in an association list, modelling
`dict[key] = value`. -/
def updateAssoc : List (Nat × Nat) → Nat → Nat → List (Nat × Nat)
  | [], key, v => [(key, v)]
  | kv :: rest, key, v =>
      if kv.1 = key then (key, v) :: rest else kv :: updateAssoc rest key v

/-- `BettingManager` state. -/
structure BettingManager where
  main_pot : Nat
  side_pots : List SidePot
  current_bet : Nat
  betting_history : List BettingAction
  player_investments : List (Nat × Nat)
deriving DecidableEq

/-- `BettingManager._get_total_investment(player_id)`. -/
def BettingManager.getTotalInvestment (bm : BettingManager) (pid : Nat) : Nat :=
  lookupD bm.player_investments pid

/-- `BettingManager._add_investment(player_id, amount)`. -/
def BettingManager.addInvestment (bm : BettingManager) (pid amount : Nat) : BettingManager :=
  { bm with player_investments :=
      updateAssoc bm.player_investments pid (bm.getTotalInvestment pid + amount) }

/-- `BettingManager._record_action(...)`: append to the history. -/
def BettingManager.recordAction (bm : BettingManager) (pid : Nat) (ty : String)
    (amount total : Nat) : BettingManager :=
  { bm with betting_history := bm.betting_history ++ [⟨pid, ty, amount, total⟩] }

/-- `BettingManager.get_total_pot`. -/
def BettingManager.getTotalPot (bm : BettingManager) : Nat :=
  bm.main_pot + (bm.side_pots.map SidePot.amount).sum

/-- `BettingManager.process_raise(player, raise_to_amount)`.  The two guard
returns come first; otherwise the player is charged `call` then `bet` as one
combined action and the table bet becomes the player's new total bet.  The
flag assertions inside `Player.call`/`Player.bet` are preconditions
(`Player.callPre`, `Player.betPre`) assumed by the theorems that use this. -/
def BettingManager.processRaise (bm : BettingManager) (p : Player)
    (raise_to_amount : Nat) : Option (BettingManager × Player × Nat) :=
  if bm.current_bet = 0 then some (bm, p, 0)
  else if raise_to_amount ≤ bm.current_bet then some (bm, p, 0)
  else if ¬ p.callPre then none
  else
    let pc := p.callOp bm.current_bet
    if ¬ pc.1.betPre (raise_to_amount - bm.current_bet) then none
    else
      let pb := pc.1.betOp (raise_to_amount - bm.current_bet)
      let total_action := pc.2 + pb.2
      let bm1 := { bm with
          main_pot := bm.main_pot + total_action,
          current_bet := pb.1.current_bet }
      let bm2 := bm1.addInvestment p.player_id total_action
      some (bm2.recordAction p.player_id "raise" total_action
          (bm2.getTotalInvestment p.player_id), pb.1, total_action)

/-- `BettingManager.process_all_in(player)`: the zero-chip guard returns the
sentinel 0 before anything else; otherwise `go_all_in` runs (whose assertion
failures are `none`), the pot grows, and the table bet rises only if the
player's new total exceeds it. -/
def BettingManager.processAllIn (bm : BettingManager) (p : Player) :
    Option (BettingManager × Player × Nat) :=
  if p.chips = 0 then some (bm, p, 0)
  else
    match p.goAllIn with
    | none => none
    | some pa =>
      let p2 := pa.1
      let all_in_amount := pa.2
      let bm1 := { bm with main_pot := bm.main_pot + all_in_amount }
      let bm2 := if bm1.current_bet < p2.current_bet
                 then { bm1 with current_bet := p2.current_bet } else bm1
      let bm3 := bm2.addInvestment p.player_id all_in_amount
      some (bm3.recordAction p.player_id "all_in" all_in_amount
          (bm3.getTotalInvestment p.player_id), p2, all_in_amount)

/-- The per-level loop of `calculate_side_pots`: for each investment level in
order, pay out `(level - previous) * |eligible|` to the players (active or
all-in) whose investment reaches the level, skipping empty pots. -/
def sidePotsLoop (bm : BettingManager) (players : List Player) :
    Nat → List Nat → List SidePot
  | _, [] => []
  | previous_level, level :: rest =>
    let player_indices :=
      ((players.filter (fun p => (p.isActive || p.is_all_in)
          && decide (level ≤ bm.getTotalInvestment p.player_id))).map
        (fun p => p.player_id))
    let pots :=
      if player_indices.isEmpty then []
      else
        let pot_amount := (level - previous_level) * player_indices.length
        if 0 < pot_amount then [SidePot.mk pot_amount player_indices] else []
    pots ++ sidePotsLoop bm players level rest

/-- `BettingManager.calculate_side_pots(players)`. -/
def BettingManager.calculateSidePots (bm : BettingManager)
    (players : List Player) : List SidePot :=
  if !(players.any (fun p => p.is_all_in)) then
    let eligible := (players.filter (fun p => p.isActive)).map (fun p => p.player_id)
    if eligible.isEmpty then [] else [SidePot.mk bm.getTotalPot eligible]
  else
    let investment_levels :=
      ((players.filter (fun p => p.isActive || p.is_all_in)).map
        (fun p => bm.getTotalInvestment p.player_id))
    let sorted_levels := sortAsc (uniqueKeys investment_levels)
    sidePotsLoop bm players 0 sorted_levels

/-- Inner loop of `distribute_winnings` over one winner list with its
enumeration index `j`: each winner receives the even share plus one extra
chip while `j < remainder`. -/
def creditWinners (per rem : Nat) : Nat → List Nat → List (Nat × Nat) → List (Nat × Nat)
  | _, [], w => w
  | j, winner_id :: rest, w =>
    let amount := per + (if j < rem then 1 else 0)
    creditWinners per rem (j + 1) rest
      (updateAssoc w winner_id (lookupD w winner_id + amount))

/-- Outer loop of `distribute_winnings` over `zip(winners_by_pot, side_pots)`,
skipping empty winner lists. -/
def distributeLoop : List (List Nat × SidePot) → List (Nat × Nat) → List (Nat × Nat)
  | [], w => w
  | (winners, pot) :: rest, w =>
    if winners.isEmpty then distributeLoop rest w
    else
      distributeLoop rest
        (creditWinners (pot.amount / winners.length) (pot.amount % winners.length)
          0 winners w)

/-- `BettingManager.distribute_winnings(winners_by_pot, side_pots)`; the
result is the `winnings` dict (an association list queried via `lookupD`,
ids absent from it having won 0). -/
def distributeWinnings (winners_by_pot : List (List Nat))
    (side_pots : List SidePot) : List (Nat × Nat) :=
  distributeLoop (winners_by_pot.zip side_pots) []

/-- `BettingManager.can_player_check`, with the post-call manager and player
states made explicit: the method body is a single read-only expression. -/
def BettingManager.canPlayerCheck (bm : BettingManager) (p : Player) :
    Bool × BettingManager × Player :=
  ((bm.current_bet == 0) && p.canAct, bm, p)

/-- `BettingManager.can_player_call`, with post-call states explicit. -/
def BettingManager.canPlayerCall (bm : BettingManager) (p : Player) :
    Bool × BettingManager × Player :=
  (decide (0 < bm.current_bet) && p.canAct && decide (p.current_bet < bm.current_bet),
    bm, p)

/-- `BettingManager.can_player_bet`, with post-call states explicit. -/
def BettingManager.canPlayerBet (bm : BettingManager) (p : Player) :
    Bool × BettingManager × Player :=
  ((bm.current_bet == 0) && p.canAct && p.hasChips, bm, p)

/-- `BettingManager.can_player_raise`, with post-call states explicit. -/
def BettingManager.canPlayerRaise (bm : BettingManager) (p : Player) :
    Bool × BettingManager × Player :=
  (decide (0 < bm.current_bet) && p.canAct && p.hasChips
      && decide (p.current_bet < bm.current_bet), bm, p)

/-- `BettingManager.get_minimum_raise`, with the post-call manager state
explicit. -/
def BettingManager.getMinimumRaise (bm : BettingManager) : Nat × BettingManager :=
  (if bm.current_bet = 0 then 0 else bm.current_bet * 2, bm)

/-- `BettingManager.get_call_amount`, with post-call states explicit
(`max(0, current_bet - player.current_bet)` is truncated subtraction). -/
def BettingManager.getCallAmount (bm : BettingManager) (p : Player) :
    Nat × BettingManager × Player :=
  (bm.current_bet - p.current_bet, bm, p)

/-- `BettingManager.is_betting_capped(players)`, with the post-call manager
state explicit: at most one active, non-all-in player with chips remains. -/
def BettingManager.isBettingCapped (bm : BettingManager) (players : List Player) :
    Bool × BettingManager :=
  (decide (((players.filter (fun p => p.isActive)).filter
      (fun p => p.hasChips && !p.is_all_in)).length ≤ 1), bm)

/-! ## Game state machine (src/core/game.py)

Only the fields touched by `process_action` are modelled; the deck, board,
blinds and phase are irrelevant to the claims about `process_action` and are
untouched by it.  The `players_acted` set is a duplicate-free list. -/

/-- The `GameAction` enum. -/
inductive GameAction where
  | FOLD
  | CHECK
  | CALL
  | BET
  | RAISE
  | ALL_IN
deriving DecidableEq

/-- The slice of `Game` state read or written by `process_action`. -/
structure Game where
  players : List Player
  pot : Nat
  current_bet : Nat
  current_player : Nat
  last_raiser : Option Nat
  players_acted : List Nat
deriving DecidableEq

/-- `Game.get_active_players`. -/
def Game.getActivePlayers (g : Game) : List Nat :=
  (List.range g.players.length).filter (fun i => (g.players.getD i default).isActive)

/-- `Game.can_check(player_idx)`. -/
def Game.canCheck (g : Game) (i : Nat) : Bool :=
  decide (i ∈ g.getActivePlayers) && (g.current_bet == 0)
    && (g.players.getD i default).canAct

/-- `Game.can_call(player_idx)`. -/
def Game.canCall (g : Game) (i : Nat) : Bool :=
  decide (i ∈ g.getActivePlayers) && decide (0 < g.current_bet)
    && (g.players.getD i default).canAct

/-- `Game.can_bet(player_idx)`. -/
def Game.canBet (g : Game) (i : Nat) : Bool :=
  decide (i ∈ g.getActivePlayers) && (g.current_bet == 0)
    && (g.players.getD i default).canAct && (g.players.getD i default).hasChips

/-- `Game.can_raise(player_idx)`. -/
def Game.canRaise (g : Game) (i : Nat) : Bool :=
  decide (i ∈ g.getActivePlayers) && decide (0 < g.current_bet)
    && (g.players.getD i default).canAct && (g.players.getD i default).hasChips

/-- `Game._advance_to_next_active_player`: with at least two active players,
walk forward cyclically from the seat after the current one and stop at the
first active seat, or at the starting seat after a full cycle. -/
def Game.advanceToNextActivePlayer (g : Game) : Game :=
  let active := g.getActivePlayers
  if active.length ≤ 1 then g
  else
    let n := g.players.length
    let found := ((List.range n).map (fun k => (g.current_player + 1 + k) % n)).find?
      (fun i => decide (i ∈ active) || (i == g.current_player))
    { g with current_player := found.getD g.current_player }

/-- Adding the acting player to the `players_acted` set. -/
def addActed (acted : List Nat) (i : Nat) : List Nat :=
  if i ∈ acted then acted else acted ++ [i]

/-- The common epilogue of `process_action`: record the actor and advance the
turn. -/
def Game.finishAction (g : Game) (player_idx : Nat) : Game :=
  Game.advanceToNextActivePlayer { g with players_acted := addActed g.players_acted player_idx }

/-- `Game.process_action(player_idx, action, amount, is_bb)`.  Assertion
failures (out of turn, inactive player, per-action `assert`s and the
assertions inside the delegated `Player` money operations) are `none`; a
normal completion returns the updated game and the `True` result. -/
def Game.processAction (g : Game) (player_idx : Nat) (action : GameAction)
    (amount : Nat) (is_bb : Bool) : Option (Game × Bool) :=
  if player_idx ≠ g.current_player then none
  else if player_idx ∉ g.getActivePlayers then none
  else
    let p := g.players.getD player_idx default
    match action with
    | .FOLD =>
      if p.is_folded || p.is_sitting_out then none
      else
        let g1 := { g with players := g.players.set player_idx { p with is_folded := true } }
        some (g1.finishAction player_idx, true)
    | .CHECK =>
      if !(g.canCheck player_idx || is_bb) then none
      else if p.is_folded || p.is_all_in || p.is_sitting_out then none
      else some (g.finishAction player_idx, true)
    | .CALL =>
      if !(g.canCall player_idx) then none
      else if ¬ p.callPre then none
      else
        let pc := p.callOp g.current_bet
        let g1 := { g with
            players := g.players.set player_idx pc.1,
            pot := g.pot + pc.2 }
        some (g1.finishAction player_idx, true)
    | .BET =>
      if !(g.canBet player_idx) then none
      else if amount = 0 then none
      else if ¬ p.betPre amount then none
      else
        let pb := p.betOp amount
        let g1 := { g with
            players := g.players.set player_idx pb.1,
            current_bet := pb.1.current_bet,
            pot := g.pot + pb.2,
            last_raiser := some player_idx }
        some (g1.finishAction player_idx, true)
    | .RAISE =>
      if !(g.canRaise player_idx) then none
      else if amount ≤ g.current_bet then none
      else if ¬ p.callPre then none
      else
        let pc := p.callOp g.current_bet
        if ¬ pc.1.betPre (amount - g.current_bet) then none
        else
        let pb := pc.1.betOp (amount - g.current_bet)
        let total_action := pc.2 + pb.2
        let g1 := { g with
            players := g.players.set player_idx pb.1,
            current_bet := amount,
            pot := g.pot + total_action,
            last_raiser := some player_idx }
        some (g1.finishAction player_idx, true)
    | .ALL_IN =>
      match p.goAllIn with
      | none => none
      | some pa =>
        let g1 := { g with
            players := g.players.set player_idx pa.1,
            pot := g.pot + pa.2 }
        let g2 := if g.current_bet < pa.1.current_bet
                  then { g1 with current_bet := pa.1.current_bet,
                                 last_raiser := some player_idx }
                  else g1
        some (g2.finishAction player_idx, true)

/-! ## Definitions used only to state claims -/

/-- The running minimum that `Hand.best_five_cards` computes: the lowest
`evaluate_hand` score over all 5-card subsets (Python iterates
`itertools.combinations(cards, 5)` starting from `float(&apos;inf&apos;)`;
every actual score is far below `10^13`, so that constant plays the role of
infinity).  The score of the returned best hand is exactly this minimum. -/
def bestFiveScore (cards : List Card) : Nat :=
  ((cards.sublistsLen 5).map evaluate_hand).foldl min 10000000000000

/-- The per-pot winner share described by the spec: winner occurrences are
enumerated with their position `j`; each occurrence receives
`amount / n + 1` if `j < amount % n` and `amount / n` otherwise. -/
def specPotShare (amount : Nat) (winners : List Nat) (pid : Nat) : Nat :=
  ((winners.enum.filter (fun je => je.2 = pid)).map
    (fun je => amount / winners.length + (if je.1 < amount % winners.length then 1 else 0))).sum

/-- A concrete wheel: ace, two, three, four, five with two suits present
(so the hand is never a flush, with or without extra cards). -/
def wheelHand : List Card := [⟨12, 0⟩, ⟨0, 1⟩, ⟨1, 0⟩, ⟨2, 0⟩, ⟨3, 0⟩]

instance : IsTotal Nat (fun a b => b ≤ a) := ⟨fun a b => Nat.le_total b a⟩

instance : IsTrans Nat (fun a b => b ≤ a) :=
  ⟨fun _ _ _ hab hbc => Nat.le_trans hbc hab⟩

instance : IsAntisymm Nat (fun a b => b ≤ a) :=
  ⟨fun _ _ h1 h2 => Nat.le_antisymm h2 h1⟩

/-! ## Helper lemmas -/

theorem buildScore_pos (t : Nat) (comps : List Nat) (h : 1 ≤ t) :
    0 < buildScore t comps := by
  unfold buildScore
  have h1 : 100000000000 ≤ t * 100000000000 := Nat.le_mul_of_pos_left _ h
  omega

theorem evalCore_pos (ranks : List Nat) (fl : Bool) : 0 < evalCore ranks fl := by
  unfold evalCore
  dsimp only
  repeat' split
  all_goals exact buildScore_pos _ _ (by norm_num)

theorem mem_uniqueKeysAux (a : Nat) :
    ∀ (l seen : List Nat), a ∈ uniqueKeysAux seen l ↔ a ∈ l ∧ a ∉ seen := by
  intro l
  induction l with
  | nil => simp [uniqueKeysAux]
  | cons x xs ih =>
    intro seen
    rw [uniqueKeysAux]
    by_cases hx : x ∈ seen
    · rw [if_pos hx, ih seen]
      constructor
      · rintro ⟨h1, h2⟩
        exact ⟨List.mem_cons_of_mem x h1, h2⟩
      · rintro ⟨h1, h2⟩
        rcases List.mem_cons.mp h1 with rfl | h3
        · exact absurd hx h2
        · exact ⟨h3, h2⟩
    · rw [if_neg hx]
      simp only [List.mem_cons, ih (x :: seen)]
      constructor
      · rintro (rfl | ⟨h1, h2⟩)
        · exact ⟨Or.inl rfl, hx⟩
        · exact ⟨Or.inr h1, fun hs => h2 (Or.inr hs)⟩
      · rintro ⟨rfl | h1, h2⟩
        · exact Or.inl rfl
        · by_cases hax : a = x
          · exact Or.inl hax
          · exact Or.inr ⟨h1, fun hs => by
              rcases hs with h | h
              · exact hax h
              · exact h2 h⟩

theorem mem_uniqueKeys (a : Nat) (l : List Nat) : a ∈ uniqueKeys l ↔ a ∈ l := by
  rw [uniqueKeys, mem_uniqueKeysAux]
  simp

theorem uniqueKeysAux_eq_nil (seen : List Nat) :
    ∀ (l : List Nat), uniqueKeysAux seen l = [] ↔ ∀ a ∈ l, a ∈ seen := by
  intro l
  induction l generalizing seen with
  | nil => simp [uniqueKeysAux]
  | cons x xs ih =>
    rw [uniqueKeysAux]
    by_cases hx : x ∈ seen
    · rw [if_pos hx, ih seen]
      constructor
      · intro h a ha
        rcases List.mem_cons.mp ha with rfl | h2
        · exact hx
        · exact h a h2
      · intro h a ha
        exact h a (List.mem_cons_of_mem x ha)
    · rw [if_neg hx]
      constructor
      · intro h
        exact absurd h (by simp)
      · intro h
        exact absurd (h x (List.mem_cons_self x xs)) hx

theorem uniqueKeys_length_one (l : List Nat) :
    (uniqueKeys l).length = 1 ↔ l ≠ [] ∧ ∀ a ∈ l, ∀ b ∈ l, a = b := by
  cases l with
  | nil => simp [uniqueKeys, uniqueKeysAux]
  | cons x xs =>
    rw [uniqueKeys, uniqueKeysAux]
    rw [if_neg (List.not_mem_nil x)]
    simp only [List.length_cons, Nat.add_left_eq_self, List.length_eq_zero,
      uniqueKeysAux_eq_nil]
    constructor
    · intro h
      refine ⟨by simp, ?_⟩
      intro a ha b hb
      have hx : ∀ y ∈ xs, y = x := by
        intro y hy
        have := h y hy
        simpa using this
      rcases List.mem_cons.mp ha with rfl | ha2
      · rcases List.mem_cons.mp hb with rfl | hb2
        · rfl
        · exact (hx b hb2).symm
      · rcases List.mem_cons.mp hb with rfl | hb2
        · exact hx a ha2
        · rw [hx a ha2, hx b hb2]
    · rintro ⟨-, h⟩ y hy
      simpa using h y (List.mem_cons_of_mem x hy) x (List.mem_cons_self x xs)

/-! ## C1: the score encoding does not separate hand categories -/

/-- C1 (code bug): the claim states `evaluate_hand` scores give a strict
total order respecting the category precedence, with equal scores exactly
for equal category and components.  The code computes exactly
`category * 10^11 + Σ component_i * 100^(5-i)`, but the leading component can
reach `12 * 100^5 = 1.2 * 10^11 > 10^11`, so categories overlap (the comment
`Ensure hand types do not overlap` in `_build_score` is violated): four
twos with a three kicker scores 321100000000, exactly equal to the
full house queens over threes, and strictly worse (greater) than the full
house aces over kings at 300100000000, although four-of-a-kind precedes
full house in the claimed order. -/
theorem C1_score_encoding_category_overlap :
    evaluate_hand [⟨0,0⟩, ⟨0,1⟩, ⟨0,2⟩, ⟨0,3⟩, ⟨1,0⟩] = buildScore 2 [12, 11] ∧
    evaluate_hand [⟨10,0⟩, ⟨10,1⟩, ⟨10,2⟩, ⟨1,0⟩, ⟨1,1⟩] = buildScore 3 [2, 11] ∧
    evaluate_hand [⟨12,0⟩, ⟨12,1⟩, ⟨12,2⟩, ⟨11,0⟩, ⟨11,1⟩] = buildScore 3 [0, 1] ∧
    evaluate_hand [⟨0,0⟩, ⟨0,1⟩, ⟨0,2⟩, ⟨0,3⟩, ⟨1,0⟩] =
      evaluate_hand [⟨10,0⟩, ⟨10,1⟩, ⟨10,2⟩, ⟨1,0⟩, ⟨1,1⟩] ∧
    evaluate_hand [⟨12,0⟩, ⟨12,1⟩, ⟨12,2⟩, ⟨11,0⟩, ⟨11,1⟩] <
      evaluate_hand [⟨0,0⟩, ⟨0,1⟩, ⟨0,2⟩, ⟨0,3⟩, ⟨1,0⟩] := by
  refine ⟨by decide, by decide, by decide, by decide, by decide⟩

/-! ## C10: money conservation in Player.bet and Player.call -/

/-- C10: under the flag preconditions, `Player.bet` and `Player.call` return
an amount `r ≤ chips`, move exactly `r` from the stack into `current_bet`
and `total_bet_this_hand` (so `chips + total_bet_this_hand` is conserved and
chips stay nonnegative), and afterwards `is_all_in` holds iff the stack is
empty. -/
theorem C10_bet_call_move_exact (p : Player) (amount : Nat) :
    (p.betPre amount →
      (p.betOp amount).2 ≤ p.chips ∧
      (p.betOp amount).1.chips = p.chips - (p.betOp amount).2 ∧
      (p.betOp amount).1.current_bet = p.current_bet + (p.betOp amount).2 ∧
      (p.betOp amount).1.total_bet_this_hand
        = p.total_bet_this_hand + (p.betOp amount).2 ∧
      (p.betOp amount).1.chips + (p.betOp amount).1.total_bet_this_hand
        = p.chips + p.total_bet_this_hand ∧
      ((p.betOp amount).1.is_all_in = true ↔ (p.betOp amount).1.chips = 0)) ∧
    (p.callPre →
      (p.callOp amount).2 ≤ p.chips ∧
      (p.callOp amount).1.chips = p.chips - (p.callOp amount).2 ∧
      (p.callOp amount).1.current_bet = p.current_bet + (p.callOp amount).2 ∧
      (p.callOp amount).1.total_bet_this_hand
        = p.total_bet_this_hand + (p.callOp amount).2 ∧
      (p.callOp amount).1.chips + (p.callOp amount).1.total_bet_this_hand
        = p.chips + p.total_bet_this_hand ∧
      ((p.callOp amount).1.is_all_in = true ↔ (p.callOp amount).1.chips = 0)) := by
  constructor
  · intro _
    have hm : min amount p.chips ≤ p.chips := Nat.min_le_right _ _
    refine ⟨hm, rfl, rfl, rfl, ?_, ?_⟩
    · show p.chips - min amount p.chips + (p.total_bet_this_hand + min amount p.chips)
        = p.chips + p.total_bet_this_hand
      omega
    · show (p.chips - min amount p.chips == 0) = true ↔
        p.chips - min amount p.chips = 0
      exact beq_iff_eq
  · intro _
    have hm : min (amount - p.current_bet) p.chips ≤ p.chips := Nat.min_le_right _ _
    refine ⟨hm, rfl, rfl, rfl, ?_, ?_⟩
    · show p.chips - min (amount - p.current_bet) p.chips
          + (p.total_bet_this_hand + min (amount - p.current_bet) p.chips)
        = p.chips + p.total_bet_this_hand
      omega
    · show (p.chips - min (amount - p.current_bet) p.chips == 0) = true ↔
        p.chips - min (amount - p.current_bet) p.chips = 0
      exact beq_iff_eq

theorem C10_witness :
    (((⟨7, 10, 3, 5, false, false, false⟩ : Player).betOp 4).2 ≤ 10 ∧
      ((⟨7, 10, 3, 5, false, false, false⟩ : Player).betOp 4).1.chips
        = 10 - ((⟨7, 10, 3, 5, false, false, false⟩ : Player).betOp 4).2 ∧
      ((⟨7, 10, 3, 5, false, false, false⟩ : Player).betOp 4).1.current_bet
        = 3 + ((⟨7, 10, 3, 5, false, false, false⟩ : Player).betOp 4).2 ∧
      ((⟨7, 10, 3, 5, false, false, false⟩ : Player).betOp 4).1.total_bet_this_hand
        = 5 + ((⟨7, 10, 3, 5, false, false, false⟩ : Player).betOp 4).2 ∧
      ((⟨7, 10, 3, 5, false, false, false⟩ : Player).betOp 4).1.chips
          + ((⟨7, 10, 3, 5, false, false, false⟩ : Player).betOp 4).1.total_bet_this_hand
        = 10 + 5 ∧
      (((⟨7, 10, 3, 5, false, false, false⟩ : Player).betOp 4).1.is_all_in = true ↔
        ((⟨7, 10, 3, 5, false, false, false⟩ : Player).betOp 4).1.chips = 0)) ∧
    (((⟨7, 10, 3, 5, false, false, false⟩ : Player).callOp 4).2 ≤ 10 ∧
      ((⟨7, 10, 3, 5, false, false, false⟩ : Player).callOp 4).1.chips
        = 10 - ((⟨7, 10, 3, 5, false, false, false⟩ : Player).callOp 4).2 ∧
      ((⟨7, 10, 3, 5, false, false, false⟩ : Player).callOp 4).1.current_bet
        = 3 + ((⟨7, 10, 3, 5, false, false, false⟩ : Player).callOp 4).2 ∧
      ((⟨7, 10, 3, 5, false, false, false⟩ : Player).callOp 4).1.total_bet_this_hand
        = 5 + ((⟨7, 10, 3, 5, false, false, false⟩ : Player).callOp 4).2 ∧
      ((⟨7, 10, 3, 5, false, false, false⟩ : Player).callOp 4).1.chips
          + ((⟨7, 10, 3, 5, false, false, false⟩ : Player).callOp 4).1.total_bet_this_hand
        = 10 + 5 ∧
      (((⟨7, 10, 3, 5, false, false, false⟩ : Player).callOp 4).1.is_all_in = true ↔
        ((⟨7, 10, 3, 5, false, false, false⟩ : Player).callOp 4).1.chips = 0)) :=
  ⟨(C10_bet_call_move_exact ⟨7, 10, 3, 5, false, false, false⟩ 4).1
      ⟨by decide, rfl, rfl, rfl⟩,
    (C10_bet_call_move_exact ⟨7, 10, 3, 5, false, false, false⟩ 4).2 ⟨rfl, rfl⟩⟩

/-! ## C8: going all-in with zero chips -/

/-- C8 counterexample: the claim states that `Game.process_action` with
`ALL_IN` on an active zero-chip current player rejects without raising any
error, but the code calls `Player.go_all_in` directly, whose
`chips > 0` assertion fails (modelled as `none`), so the action is a thrown
failure, not a sentinel rejection. -/
theorem C8_game_all_in_zero_chips_fails :
    Game.processAction
      ⟨[⟨0, 0, 0, 100, true, false, false⟩, ⟨1, 100, 10, 10, false, false, false⟩],
        200, 10, 0, none, []⟩ 0 GameAction.ALL_IN 0 false = none := by
  decide

/-- C8 (amended): `BettingManager.process_all_in` on a zero-chip player is a
sentinel rejection, returning 0 with the manager and the player unchanged;
`Game.process_action` with `ALL_IN` on an active zero-chip current player
instead hits the `chips > 0` assertion inside `Player.go_all_in` (a fatal
precondition failure, `none`), so the never-thrown guarantee holds only at
the `BettingManager` level. -/
theorem C8_all_in_zero_chips :
    (∀ (bm : BettingManager) (p : Player), p.chips = 0 →
      bm.processAllIn p = some (bm, p, 0)) ∧
    (∀ (g : Game) (idx : Nat), g.current_player = idx →
      idx ∈ g.getActivePlayers → (g.players.getD idx default).chips = 0 →
      g.processAction idx GameAction.ALL_IN 0 false = none) := by
  constructor
  · intro bm p h
    unfold BettingManager.processAllIn
    rw [if_pos h]
  · intro g idx h1 h2 h3
    unfold Game.processAction
    rw [if_neg (fun hne => hne h1.symm), if_neg (not_not_intro h2)]
    have hp : (g.players.getD idx default).isActive = true :=
      (List.mem_filter.mp h2).2
    have hf : (g.players.getD idx default).is_folded = false := by
      unfold Player.isActive at hp
      simp only [Bool.and_eq_true, Bool.not_eq_true'] at hp
      exact hp.1
    have hga : (g.players.getD idx default).goAllIn = none := by
      unfold Player.goAllIn
      rw [if_neg (by rw [hf]; exact Bool.false_ne_true), if_pos h3]
    dsimp only
    rw [hga]

theorem C8_all_in_zero_chips_witness :
    BettingManager.processAllIn ⟨5, [], 10, [], [(0, 30)]⟩
        ⟨0, 0, 0, 30, true, false, false⟩
      = some (⟨5, [], 10, [], [(0, 30)]⟩, ⟨0, 0, 0, 30, true, false, false⟩, 0) ∧
    Game.processAction
      ⟨[⟨2, 0, 0, 50, true, false, false⟩, ⟨3, 40, 0, 0, false, false, false⟩],
        90, 10, 0, none, []⟩ 0 GameAction.ALL_IN 0 false = none :=
  ⟨C8_all_in_zero_chips.1 _ _ rfl,
    C8_all_in_zero_chips.2 _ 0 rfl (by decide) rfl⟩

/-! ## C6: winnings distribution -/

theorem lookupD_nil (q : Nat) : lookupD [] q = 0 := rfl

theorem lookupD_cons (a : Nat × Nat) (m : List (Nat × Nat)) (q : Nat) :
    lookupD (a :: m) q = if a.1 = q then a.2 else lookupD m q := by
  unfold lookupD
  rcases eq_or_ne a.1 q with h | h
  · rw [if_pos h, List.find?_cons_of_pos]
    simp [h]
  · rw [if_neg h, List.find?_cons_of_neg]
    simp [h]

theorem lookupD_updateAssoc (m : List (Nat × Nat)) (k v q : Nat) :
    lookupD (updateAssoc m k v) q = if q = k then v else lookupD m q := by
  induction m with
  | nil =>
    rw [updateAssoc, lookupD_cons]
    rcases eq_or_ne q k with h | h
    · simp [h]
    · simp [h, Ne.symm h, lookupD_nil]
  | cons a m ih =>
    rw [updateAssoc]
    rcases eq_or_ne a.1 k with h | h
    · rw [if_pos h, lookupD_cons, lookupD_cons]
      rcases eq_or_ne q k with h2 | h2
      · simp [h2]
      · simp [Ne.symm h2, h2, h]
    · rw [if_neg h, lookupD_cons, lookupD_cons, ih]
      rcases eq_or_ne a.1 q with h2 | h2
      · have : ¬ q = k := fun hqk => h (h2.trans hqk)
        simp [h2, this]
      · simp [h2]

theorem lookupD_creditWinners (per rem pid : Nat) :
    ∀ (ws : List Nat) (j : Nat) (w : List (Nat × Nat)),
      lookupD (creditWinners per rem j ws w) pid
        = lookupD w pid +
          (((ws.enumFrom j).filter (fun je => je.2 = pid)).map
            (fun je => per + (if je.1 < rem then 1 else 0))).sum := by
  intro ws
  induction ws with
  | nil => simp [creditWinners]
  | cons a ws ih =>
    intro j w
    rw [creditWinners, ih (j + 1), lookupD_updateAssoc, List.enumFrom_cons]
    rcases eq_or_ne a pid with h | h
    · subst h
      rw [List.filter_cons_of_pos (by simp), List.map_cons, List.sum_cons]
      rw [if_pos rfl]
      dsimp only
      omega
    · rw [List.filter_cons_of_neg (by simp [h])]
      rw [if_neg (Ne.symm h)]

theorem lookupD_distributeLoop (pid : Nat) :
    ∀ (prs : List (List Nat × SidePot)) (w : List (Nat × Nat)),
      lookupD (distributeLoop prs w) pid
        = lookupD w pid +
          (prs.map (fun pr => if pr.1.isEmpty then 0
            else specPotShare pr.2.amount pr.1 pid)).sum := by
  intro prs
  induction prs with
  | nil => simp [distributeLoop]
  | cons pr rest ih =>
    intro w
    rw [distributeLoop]
    rcases h : pr.1.isEmpty with _ | _
    · rw [if_neg (by simp [h]), ih, lookupD_creditWinners, List.map_cons,
        List.sum_cons, if_neg (by simp [h])]
      unfold specPotShare
      rw [List.enum]
      omega
    · rw [if_pos (by simp [h]), ih, List.map_cons, List.sum_cons,
        if_pos (by simp [h])]
      omega

/-- C6: `distribute_winnings` credits every player, across the zipped
(winner-list, pot) pairs with a non-empty winner list, the even share
`amount / n` plus one extra chip for each of their positions `j` below
`amount % n` (so the first `remainder` listed winners get the extra chip);
in particular a 301-chip pot split among winners `[1, 2, 3]` pays 101, 100
and 100. -/
theorem C6_distribute_winnings_shares :
    (∀ (winners_by_pot : List (List Nat)) (side_pots : List SidePot) (pid : Nat),
      lookupD (distributeWinnings winners_by_pot side_pots) pid
        = ((winners_by_pot.zip side_pots).map
            (fun pr => if pr.1.isEmpty then 0
              else specPotShare pr.2.amount pr.1 pid)).sum) ∧
    lookupD (distributeWinnings [[1, 2, 3]] [⟨301, [1, 2, 3]⟩]) 1 = 101 ∧
    lookupD (distributeWinnings [[1, 2, 3]] [⟨301, [1, 2, 3]⟩]) 2 = 100 ∧
    lookupD (distributeWinnings [[1, 2, 3]] [⟨301, [1, 2, 3]⟩]) 3 = 100 := by
  refine ⟨?_, by decide, by decide, by decide⟩
  intro wbp sps pid
  unfold distributeWinnings
  rw [lookupD_distributeLoop, lookupD_nil, Nat.zero_add]

/-! ## C9: the query helpers are read-only and compute the stated values -/

/-- C9: every query helper returns the `BettingManager` and its `Player`
argument unchanged (their bodies are single read-only expressions);
`get_minimum_raise` is twice the current bet when it is positive and 0
otherwise, and `is_betting_capped` holds exactly when at most one active,
non-all-in player with chips remains. -/
theorem C9_query_helpers_read_only :
    (∀ (bm : BettingManager) (p : Player),
      (bm.canPlayerCheck p).2.1 = bm ∧ (bm.canPlayerCheck p).2.2 = p ∧
      (bm.canPlayerCall p).2.1 = bm ∧ (bm.canPlayerCall p).2.2 = p ∧
      (bm.canPlayerBet p).2.1 = bm ∧ (bm.canPlayerBet p).2.2 = p ∧
      (bm.canPlayerRaise p).2.1 = bm ∧ (bm.canPlayerRaise p).2.2 = p ∧
      (bm.getCallAmount p).2.1 = bm ∧ (bm.getCallAmount p).2.2 = p ∧
      bm.getMinimumRaise.2 = bm) ∧
    (∀ (bm : BettingManager) (players : List Player),
      (bm.isBettingCapped players).2 = bm) ∧
    (∀ (bm : BettingManager),
      bm.getMinimumRaise.1 = if 0 < bm.current_bet then 2 * bm.current_bet else 0) ∧
    (∀ (bm : BettingManager) (players : List Player),
      ((bm.isBettingCapped players).1 = true ↔
        (players.filter (fun p =>
          decide (p.isActive = true ∧ p.is_all_in = false ∧ 0 < p.chips))).length ≤ 1)) := by
  refine ⟨fun bm p => ⟨rfl, rfl, rfl, rfl, rfl, rfl, rfl, rfl, rfl, rfl, rfl⟩,
    fun bm players => rfl, ?_, ?_⟩
  · intro bm
    unfold BettingManager.getMinimumRaise
    rcases Nat.eq_zero_or_pos bm.current_bet with h | h
    · simp [h]
    · rw [if_neg (by omega), if_pos h, Nat.mul_comm]
  · intro bm players
    unfold BettingManager.isBettingCapped
    rw [List.filter_filter]
    simp only [decide_eq_true_eq]
    have hpred : ∀ q ∈ players,
        (q.hasChips && !q.is_all_in && q.isActive)
          = decide (q.isActive = true ∧ q.is_all_in = false ∧ 0 < q.chips) := by
      intro q _
      cases hb1 : q.isActive <;> cases hb2 : q.is_all_in <;>
        by_cases h3 : 0 < q.chips <;>
        simp [Player.hasChips, hb1, hb2, h3]
    rw [List.filter_congr hpred]

/-! ## C3: positivity and order independence of evaluate_hand -/

theorem sortDesc_eq_of_perm {l1 l2 : List Nat} (h : l1.Perm l2) :
    sortDesc l1 = sortDesc l2 := by
  have hs1 : List.Sorted (fun a b => b ≤ a) (sortDesc l1) :=
    List.sorted_insertionSort _ l1
  have hs2 : List.Sorted (fun a b => b ≤ a) (sortDesc l2) :=
    List.sorted_insertionSort _ l2
  exact List.eq_of_perm_of_sorted
    ((List.perm_insertionSort _ l1).trans (h.trans (List.perm_insertionSort _ l2).symm))
    hs1 hs2

theorem uniqueKeys_length_one_of_perm {l1 l2 : List Nat} (h : l1.Perm l2) :
    ((uniqueKeys l1).length = 1) ↔ ((uniqueKeys l2).length = 1) := by
  rw [uniqueKeys_length_one, uniqueKeys_length_one]
  constructor
  · rintro ⟨h1, h2⟩
    refine ⟨fun hnil => h1 (by subst hnil; exact h.eq_nil), ?_⟩
    intro a ha b hb
    exact h2 a (h.mem_iff.mpr ha) b (h.mem_iff.mpr hb)
  · rintro ⟨h1, h2⟩
    refine ⟨fun hnil => h1 (by subst hnil; exact h.symm.eq_nil), ?_⟩
    intro a ha b hb
    exact h2 a (h.mem_iff.mp ha) b (h.mem_iff.mp hb)

/-- C3: for 2–7 card hands, `evaluate_hand` is strictly positive and is
invariant under any permutation of the input cards. -/
theorem C3_positive_and_order_independent (hand hand2 : List Card)
    (hlo : 2 ≤ hand.length) (hhi : hand.length ≤ 7) (hperm : hand.Perm hand2) :
    0 < evaluate_hand hand ∧ evaluate_hand hand = evaluate_hand hand2 := by
  constructor
  · exact evalCore_pos _ _
  · unfold evaluate_hand
    have hranks : sortDesc (hand.map Card.rank) = sortDesc (hand2.map Card.rank) :=
      sortDesc_eq_of_perm (hperm.map _)
    have hiff := uniqueKeys_length_one_of_perm (hperm.map Card.suit)
    have hsuits : ((uniqueKeys (hand.map Card.suit)).length == 1)
        = ((uniqueKeys (hand2.map Card.suit)).length == 1) := by
      by_cases hL : (uniqueKeys (hand.map Card.suit)).length = 1
      · rw [hL, hiff.mp hL]
      · have hL2 : ¬ (uniqueKeys (hand2.map Card.suit)).length = 1 :=
          fun hx => hL (hiff.mpr hx)
        simp [hL, hL2]
    have hlen : hand.length = hand2.length := hperm.length_eq
    dsimp only
    rw [hranks, hsuits, hlen]

theorem C3_witness :
    0 < evaluate_hand [⟨12, 0⟩, ⟨11, 1⟩, ⟨3, 2⟩] ∧
    evaluate_hand [⟨12, 0⟩, ⟨11, 1⟩, ⟨3, 2⟩]
      = evaluate_hand [⟨3, 2⟩, ⟨12, 0⟩, ⟨11, 1⟩] :=
  C3_positive_and_order_independent _ _ (by decide) (by decide) (by decide)

/-! ## C4: the wheel straight -/

theorem straightScan_ge_four :
    ∀ (l : List Nat) (a : Nat), straightScan l = some a → 4 ≤ a
  | [], a, h => by simp [straightScan] at h
  | [_], a, h => by simp [straightScan] at h
  | [_, _], a, h => by simp [straightScan] at h
  | [_, _, _], a, h => by simp [straightScan] at h
  | [_, _, _, _], a, h => by simp [straightScan] at h
  | x :: y :: z :: w :: v :: rest, a, h => by
    rw [straightScan] at h
    split at h
    · rename_i hd
      cases h
      omega
    · exact straightScan_ge_four (y :: z :: w :: v :: rest) a h

theorem getStraightHigh_ge_three (ranks : List Nat) (h : Nat)
    (hh : getStraightHigh ranks = some h) : 3 ≤ h := by
  unfold getStraightHigh at hh
  dsimp only at hh
  split at hh
  · rename_i a heq
    have h4 := straightScan_ge_four _ _ heq
    simp only [Option.some.injEq] at hh
    omega
  · split at hh
    · simp only [Option.some.injEq] at hh
      omega
    · exact absurd hh (by simp)

/-- If two cards of a hand differ in suit, the flush flag of `evaluate_hand`
is false. -/
theorem evaluate_hand_two_suits (hand : List Card) (c1 c2 : Card)
    (h1 : c1 ∈ hand) (h2 : c2 ∈ hand) (hne : c1.suit ≠ c2.suit) :
    evaluate_hand hand = evalCore (sortDesc (hand.map Card.rank)) false := by
  unfold evaluate_hand
  dsimp only
  have hL : (uniqueKeys (hand.map Card.suit)).length ≠ 1 := by
    rw [Ne, uniqueKeys_length_one]
    rintro ⟨-, hall⟩
    exact hne (hall c1.suit (List.mem_map_of_mem _ h1) c2.suit (List.mem_map_of_mem _ h2))
  rw [beq_eq_false_iff_ne.mpr hL, Bool.false_and]

set_option maxHeartbeats 1000000 in
theorem wheel_extra_one : ∀ (r : Fin 13), r.val ≠ 4 →
    evalCore (sortDesc ([12, 0, 1, 2, 3] ++ [r.val])) false = buildScore 5 [9] := by
  decide

set_option maxHeartbeats 4000000 in
theorem wheel_extra_two : ∀ (r1 r2 : Fin 13), r1.val ≠ 4 → r2.val ≠ 4 →
    evalCore (sortDesc ([12, 0, 1, 2, 3] ++ [r1.val, r2.val])) false
      = buildScore 5 [9] := by
  decide

/-- C4: `evaluate_hand` scores the (off-suit) wheel as a straight with high
rank-index 3, i.e. `buildScore 5 [12 - 3]`; the wheel scores strictly worse
(greater) than a 6-high straight; every straight high returned by
`_get_straight_high` is at least 3, so no straight scores worse than the
wheel (it is the lowest straight); and appending up to two valid kicker
cards — cards that stay kickers, i.e. of any rank except the 6
(rank-index 4), the only rank that would extend the wheel to a better
straight — leaves the score unchanged. -/
theorem C4_wheel_lowest_straight :
    evaluate_hand wheelHand = buildScore 5 [9] ∧
    evaluate_hand [⟨4, 0⟩, ⟨3, 1⟩, ⟨2, 2⟩, ⟨1, 3⟩, ⟨0, 0⟩] < evaluate_hand wheelHand ∧
    (∀ (ranks : List Nat) (h : Nat), getStraightHigh ranks = some h →
      buildScore 5 [12 - h] ≤ buildScore 5 [9]) ∧
    (∀ (extras : List Card), extras.length ≤ 2 →
      (∀ c ∈ extras, c.rank ≤ 12 ∧ c.rank ≠ 4) →
      evaluate_hand (wheelHand ++ extras) = evaluate_hand wheelHand) := by
  refine ⟨by decide, by decide, ?_, ?_⟩
  · intro ranks h hh
    have h3 := getStraightHigh_ge_three ranks h hh
    simp only [buildScore, buildScoreAux]
    norm_num
    omega
  · intro extras hlen hval
    rcases extras with _ | ⟨c, extras⟩
    · rw [List.append_nil]
    rcases extras with _ | ⟨d, extras⟩
    · obtain ⟨hc1, hc2⟩ := hval c (by simp)
      rw [evaluate_hand_two_suits (wheelHand ++ [c]) ⟨12, 0⟩ ⟨0, 1⟩
        (by simp [wheelHand]) (by simp [wheelHand]) (by decide)]
      rw [show evaluate_hand wheelHand = buildScore 5 [9] from by decide]
      exact wheel_extra_one ⟨c.rank, by omega⟩ hc2
    rcases extras with _ | ⟨e, extras⟩
    · obtain ⟨hc1, hc2⟩ := hval c (by simp)
      obtain ⟨hd1, hd2⟩ := hval d (by simp)
      rw [evaluate_hand_two_suits (wheelHand ++ [c, d]) ⟨12, 0⟩ ⟨0, 1⟩
        (by simp [wheelHand]) (by simp [wheelHand]) (by decide)]
      rw [show evaluate_hand wheelHand = buildScore 5 [9] from by decide]
      exact wheel_extra_two ⟨c.rank, by omega⟩ ⟨d.rank, by omega⟩ hc2 hd2
    · simp at hlen

theorem C4_witness :
    buildScore 5 [12 - 5] ≤ buildScore 5 [9] ∧
    evaluate_hand (wheelHand ++ [⟨11, 1⟩, ⟨10, 2⟩]) = evaluate_hand wheelHand :=
  ⟨C4_wheel_lowest_straight.2.2.1 [5, 4, 3, 2, 1] 5 (by decide),
    C4_wheel_lowest_straight.2.2.2 [⟨11, 1⟩, ⟨10, 2⟩] (by decide) (by decide)⟩

/-! ## C5: side pots -/

theorem list_sum_map_add {α : Type} (l : List α) (f g : α → Nat) :
    (l.map (fun x => f x + g x)).sum = (l.map f).sum + (l.map g).sum := by
  induction l with
  | nil => rfl
  | cons a l ih =>
    simp only [List.map_cons, List.sum_cons, ih]
    omega

theorem list_sum_map_ite {α : Type} (l : List α) (q : α → Bool) (c : Nat) :
    (l.map (fun x => if q x then c else 0)).sum = c * (l.filter q).length := by
  induction l with
  | nil => simp
  | cons a l ih =>
    by_cases h : q a
    · rw [List.filter_cons_of_pos h, List.map_cons, List.sum_cons, ih,
        List.length_cons, Nat.mul_succ, if_pos h]
      omega
    · rw [List.filter_cons_of_neg h, List.map_cons, List.sum_cons, ih, if_neg h]
      omega

theorem potsHead_sum (amtL : Nat) (A : List Nat) :
    (((if A.isEmpty then ([] : List SidePot)
        else if 0 < amtL * A.length then [SidePot.mk (amtL * A.length) A] else []).map
          SidePot.amount).sum) = amtL * A.length := by
  by_cases hA : A.isEmpty
  · rw [if_pos hA]
    have : A = [] := List.isEmpty_iff.mp hA
    simp [this]
  · rw [if_neg hA]
    by_cases hamt : 0 < amtL * A.length
    · rw [if_pos hamt]
      simp
    · rw [if_neg hamt]
      simp only [List.map_nil, List.sum_nil]
      omega

theorem mem_potsHead {amt : Nat} {A : List Nat} {sp : SidePot}
    (h : sp ∈ (if A.isEmpty then ([] : List SidePot)
      else if 0 < amt then [SidePot.mk amt A] else [])) :
    sp.player_indices = A := by
  by_cases h1 : A.isEmpty
  · rw [if_pos h1] at h
    exact absurd h (List.not_mem_nil _)
  · rw [if_neg h1] at h
    by_cases h2 : 0 < amt
    · rw [if_pos h2] at h
      rw [List.mem_singleton] at h
      rw [h]
    · rw [if_neg h2] at h
      exact absurd h (List.not_mem_nil _)

theorem potsHead_pairwise {amt : Nat} {A : List Nat}
    {r : SidePot → SidePot → Prop} :
    (if A.isEmpty then ([] : List SidePot)
      else if 0 < amt then [SidePot.mk amt A] else []).Pairwise r := by
  by_cases h1 : A.isEmpty
  · rw [if_pos h1]
    exact List.Pairwise.nil
  · rw [if_neg h1]
    by_cases h2 : 0 < amt
    · rw [if_pos h2]
      exact List.pairwise_singleton _ _
    · rw [if_neg h2]
      exact List.Pairwise.nil

theorem sidePotsLoop_sum (bm : BettingManager) (players : List Player) :
    ∀ (ls : List Nat) (prev : Nat),
      List.Sorted (fun a b => a ≤ b) (prev :: ls) →
      (∀ p ∈ players, (p.isActive || p.is_all_in) = true →
        bm.getTotalInvestment p.player_id ≤ prev ∨
          bm.getTotalInvestment p.player_id ∈ ls) →
      ((sidePotsLoop bm players prev ls).map SidePot.amount).sum
        = ((players.filter (fun p => p.isActive || p.is_all_in)).map
            (fun p => bm.getTotalInvestment p.player_id - prev)).sum := by
  intro ls
  induction ls with
  | nil =>
    intro prev _ hcov
    rw [sidePotsLoop]
    symm
    apply List.sum_eq_zero
    intro x hx
    rw [List.mem_map] at hx
    obtain ⟨p, hp, hpx⟩ := hx
    rw [List.mem_filter] at hp
    rcases hcov p hp.1 hp.2 with hle | hmem
    · omega
    · exact absurd hmem (List.not_mem_nil _)
  | cons l rest ih =>
    intro prev hsort hcov
    have hsort2 : List.Sorted (fun a b => a ≤ b) (l :: rest) :=
      (List.sorted_cons.mp hsort).2
    have hprevl : prev ≤ l := (List.sorted_cons.mp hsort).1 l (by simp)
    have hlrest : ∀ b ∈ rest, l ≤ b := (List.sorted_cons.mp hsort2).1
    have hcov2 : ∀ p ∈ players, (p.isActive || p.is_all_in) = true →
        bm.getTotalInvestment p.player_id ≤ l ∨
          bm.getTotalInvestment p.player_id ∈ rest := by
      intro p hp hq
      rcases hcov p hp hq with hle | hmem
      · exact Or.inl (Nat.le_trans hle hprevl)
      · rcases List.mem_cons.mp hmem with heq | hm
        · exact Or.inl (Nat.le_of_eq heq)
        · exact Or.inr hm
    rw [sidePotsLoop]
    dsimp only
    rw [List.map_append, List.sum_append, potsHead_sum, ih l hsort2 hcov2,
      List.length_map]
    have hAlen : (players.filter (fun p => (p.isActive || p.is_all_in)
          && decide (l ≤ bm.getTotalInvestment p.player_id))).length
        = ((players.filter (fun p => p.isActive || p.is_all_in)).filter
            (fun p => decide (l ≤ bm.getTotalInvestment p.player_id))).length := by
      rw [List.filter_filter]
      congr 1
      apply List.filter_congr
      intro p _
      exact Bool.and_comm _ _
    rw [hAlen, ← list_sum_map_ite, ← list_sum_map_add]
    have hptwise : ∀ p ∈ players.filter (fun p => p.isActive || p.is_all_in),
        ((if decide (l ≤ bm.getTotalInvestment p.player_id) then (l - prev) else 0)
            + (bm.getTotalInvestment p.player_id - l))
          = bm.getTotalInvestment p.player_id - prev := by
      intro p hp
      rw [List.mem_filter] at hp
      by_cases hql : l ≤ bm.getTotalInvestment p.player_id
      · rw [decide_eq_true hql, if_pos rfl]
        omega
      · rw [decide_eq_false hql, if_neg Bool.false_ne_true]
        have hle : bm.getTotalInvestment p.player_id ≤ prev := by
          rcases hcov p hp.1 hp.2 with h0 | h0
          · exact h0
          · rcases List.mem_cons.mp h0 with heq | hm
            · omega
            · exact absurd (hlrest _ hm) hql
        omega
    rw [List.map_congr_left hptwise]

theorem mem_sidePotsLoop (bm : BettingManager) (players : List Player) :
    ∀ (ls : List Nat) (prev : Nat) (sp : SidePot),
      sp ∈ sidePotsLoop bm players prev ls →
      ∃ l ∈ ls, sp.player_indices
        = (players.filter (fun p => (p.isActive || p.is_all_in)
            && decide (l ≤ bm.getTotalInvestment p.player_id))).map
          (fun p => p.player_id) := by
  intro ls
  induction ls with
  | nil =>
    intro prev sp hsp
    rw [sidePotsLoop] at hsp
    exact absurd hsp (List.not_mem_nil _)
  | cons l rest ih =>
    intro prev sp hsp
    rw [sidePotsLoop] at hsp
    dsimp only at hsp
    rw [List.mem_append] at hsp
    rcases hsp with hsp | hsp
    · exact ⟨l, by simp, mem_potsHead hsp⟩
    · obtain ⟨l2, hl2, heq⟩ := ih l sp hsp
      exact ⟨l2, by simp [hl2], heq⟩

theorem sidePotsLoop_pairwise (bm : BettingManager) (players : List Player) :
    ∀ (ls : List Nat) (prev : Nat), List.Sorted (fun a b => a ≤ b) ls →
      (sidePotsLoop bm players prev ls).Pairwise
        (fun a b => ∀ x ∈ b.player_indices, x ∈ a.player_indices) := by
  intro ls
  induction ls with
  | nil =>
    intro prev _
    rw [sidePotsLoop]
    exact List.Pairwise.nil
  | cons l rest ih =>
    intro prev hsort
    rw [sidePotsLoop]
    dsimp only
    rw [List.pairwise_append]
    refine ⟨potsHead_pairwise, ih l (List.sorted_cons.mp hsort).2, ?_⟩
    intro a ha b hb
    obtain ⟨l2, hl2, hb2⟩ := mem_sidePotsLoop bm players rest l b hb
    have hll2 : l ≤ l2 := (List.sorted_cons.mp hsort).1 l2 hl2
    have ha2 : a.player_indices
        = (players.filter (fun p => (p.isActive || p.is_all_in)
            && decide (l ≤ bm.getTotalInvestment p.player_id))).map
          (fun p => p.player_id) :=
      mem_potsHead ha
    rw [ha2, hb2]
    intro x hx
    rw [List.mem_map] at hx ⊢
    obtain ⟨p, hp, hpx⟩ := hx
    rw [List.mem_filter] at hp
    refine ⟨p, ?_, hpx⟩
    rw [List.mem_filter]
    refine ⟨hp.1, ?_⟩
    have hq := hp.2
    rw [Bool.and_eq_true] at hq ⊢
    refine ⟨hq.1, ?_⟩
    exact decide_eq_true (Nat.le_trans hll2 (of_decide_eq_true hq.2))

/-- C5 counterexample: with one all-in player, the emitted pot amounts sum to
the investments of the active-or-all-in players only, not of all players:
with a folded player who invested 50 and two others at 100 each (one
all-in), the pots sum to 200 while the total invested is 250, so a chip of
dead money is unaccounted, contrary to the claim. -/
theorem C5_folded_investment_unaccounted :
    ((BettingManager.calculateSidePots ⟨0, [], 0, [], [(0, 50), (1, 100), (2, 100)]⟩
        [⟨0, 950, 0, 50, false, true, false⟩, ⟨1, 0, 0, 100, true, false, false⟩,
         ⟨2, 900, 0, 100, false, false, false⟩]).map SidePot.amount).sum = 200 ∧
    (([⟨0, 950, 0, 50, false, true, false⟩, ⟨1, 0, 0, 100, true, false, false⟩,
        ⟨2, 900, 0, 100, false, false, false⟩] : List Player).map
      (fun p => BettingManager.getTotalInvestment
        ⟨0, [], 0, [], [(0, 50), (1, 100), (2, 100)]⟩ p.player_id)).sum = 250 ∧
    (200 : Nat) ≠ 250 :=
  ⟨by decide, by decide, by decide⟩

/-- C5 (amended): when at least one player is all-in, `calculate_side_pots`
builds one pot per positive investment-level increment, ordered from
broadest to narrowest eligibility (each pot's eligible set contains the
next pot's), and the pot amounts sum to exactly the total invested by the
active-or-all-in players (a folded player's investment is not accounted);
for the claimed example — all-in at 100 against two investments of 200 —
it returns exactly the pots 300 for all three and 200 for the two. -/
theorem C5_side_pots_partition :
    (∀ (bm : BettingManager) (players : List Player),
      players.any (fun p => p.is_all_in) = true →
      ((bm.calculateSidePots players).map SidePot.amount).sum
          = ((players.filter (fun p => p.isActive || p.is_all_in)).map
              (fun p => bm.getTotalInvestment p.player_id)).sum ∧
        (bm.calculateSidePots players).Pairwise
          (fun a b => ∀ x ∈ b.player_indices, x ∈ a.player_indices) ∧
        (∀ sp ∈ bm.calculateSidePots players, ∃ l, sp.player_indices
          = ((players.filter (fun p => (p.isActive || p.is_all_in)
              && decide (l ≤ bm.getTotalInvestment p.player_id))).map
            (fun p => p.player_id)))) ∧
    BettingManager.calculateSidePots ⟨0, [], 0, [], [(0, 100), (1, 200), (2, 200)]⟩
        [⟨0, 900, 0, 100, true, false, false⟩, ⟨1, 800, 0, 200, false, false, false⟩,
         ⟨2, 800, 0, 200, false, false, false⟩]
      = [⟨300, [0, 1, 2]⟩, ⟨200, [1, 2]⟩] := by
  refine ⟨?_, by decide⟩
  intro bm players hall
  unfold BettingManager.calculateSidePots
  rw [hall]
  simp only [Bool.not_true]
  rw [if_neg Bool.false_ne_true]
  have hsorted : List.Sorted (fun a b => a ≤ b)
      (sortAsc (uniqueKeys ((players.filter (fun p => p.isActive || p.is_all_in)).map
        (fun p => bm.getTotalInvestment p.player_id)))) :=
    List.sorted_insertionSort _ _
  have hsort0 : List.Sorted (fun a b => a ≤ b)
      (0 :: sortAsc (uniqueKeys ((players.filter (fun p => p.isActive || p.is_all_in)).map
        (fun p => bm.getTotalInvestment p.player_id)))) :=
    List.sorted_cons.mpr ⟨fun b _ => Nat.zero_le b, hsorted⟩
  have hcov : ∀ p ∈ players, (p.isActive || p.is_all_in) = true →
      bm.getTotalInvestment p.player_id ≤ 0 ∨
        bm.getTotalInvestment p.player_id ∈
          sortAsc (uniqueKeys ((players.filter (fun p => p.isActive || p.is_all_in)).map
            (fun p => bm.getTotalInvestment p.player_id))) := by
    intro p hp hq
    right
    have h1 : bm.getTotalInvestment p.player_id ∈
        (players.filter (fun p => p.isActive || p.is_all_in)).map
          (fun p => bm.getTotalInvestment p.player_id) :=
      List.mem_map_of_mem _ (List.mem_filter.mpr ⟨hp, hq⟩)
    have h2 := (mem_uniqueKeys _ _).mpr h1
    exact (List.perm_insertionSort _ _).mem_iff.mpr h2
  refine ⟨?_, ?_, ?_⟩
  · rw [sidePotsLoop_sum bm players _ 0 hsort0 hcov]
    simp only [Nat.sub_zero]
  · exact sidePotsLoop_pairwise bm players _ 0 hsorted
  · intro sp hsp
    obtain ⟨l, -, heq⟩ := mem_sidePotsLoop bm players _ 0 sp hsp
    exact ⟨l, heq⟩

theorem C5_witness :
    ((BettingManager.calculateSidePots ⟨0, [], 0, [], [(0, 100), (1, 200), (2, 200)]⟩
        [⟨0, 900, 0, 100, true, false, false⟩, ⟨1, 800, 0, 200, false, false, false⟩,
         ⟨2, 800, 0, 200, false, false, false⟩]).map SidePot.amount).sum
        = ((([⟨0, 900, 0, 100, true, false, false⟩, ⟨1, 800, 0, 200, false, false, false⟩,
            ⟨2, 800, 0, 200, false, false, false⟩] : List Player).filter
              (fun p => p.isActive || p.is_all_in)).map
            (fun p => BettingManager.getTotalInvestment
              ⟨0, [], 0, [], [(0, 100), (1, 200), (2, 200)]⟩ p.player_id)).sum ∧
      (BettingManager.calculateSidePots ⟨0, [], 0, [], [(0, 100), (1, 200), (2, 200)]⟩
        [⟨0, 900, 0, 100, true, false, false⟩, ⟨1, 800, 0, 200, false, false, false⟩,
         ⟨2, 800, 0, 200, false, false, false⟩]).Pairwise
        (fun a b => ∀ x ∈ b.player_indices, x ∈ a.player_indices) :=
  ⟨(C5_side_pots_partition.1 ⟨0, [], 0, [], [(0, 100), (1, 200), (2, 200)]⟩
      [⟨0, 900, 0, 100, true, false, false⟩, ⟨1, 800, 0, 200, false, false, false⟩,
        ⟨2, 800, 0, 200, false, false, false⟩] (by decide)).1,
    (C5_side_pots_partition.1 ⟨0, [], 0, [], [(0, 100), (1, 200), (2, 200)]⟩
      [⟨0, 900, 0, 100, true, false, false⟩, ⟨1, 800, 0, 200, false, false, false⟩,
        ⟨2, 800, 0, 200, false, false, false⟩] (by decide)).2.1⟩

/-! ## C7: RAISE in Game.process_action versus BettingManager.process_raise -/

theorem advanceToNextActivePlayer_fields (g : Game) :
    (g.advanceToNextActivePlayer).pot = g.pot ∧
    (g.advanceToNextActivePlayer).current_bet = g.current_bet ∧
    (g.advanceToNextActivePlayer).players = g.players := by
  unfold Game.advanceToNextActivePlayer
  dsimp only
  split
  · exact ⟨rfl, rfl, rfl⟩
  · exact ⟨rfl, rfl, rfl⟩

theorem finishAction_fields (g : Game) (i : Nat) :
    (g.finishAction i).pot = g.pot ∧
    (g.finishAction i).current_bet = g.current_bet ∧
    (g.finishAction i).players = g.players := by
  unfold Game.finishAction
  obtain ⟨h1, h2, h3⟩ :=
    advanceToNextActivePlayer_fields { g with players_acted := addActed g.players_acted i }
  exact ⟨h1, h2, h3⟩

theorem getD_set_self (l : List Player) (i : Nat) (a : Player) (hi : i < l.length) :
    (l.set i a).getD i default = a := by
  rw [List.getD_eq_getElem?_getD, List.getElem?_set_eq_of_lt _ hi, Option.getD_some]

/-- C7 counterexample: with table bet 10 and a player holding 15 chips who
raises to 20, `Game.process_action` sets the table current bet to the
requested amount 20, while `BettingManager.process_raise` on an equal state
sets it to the player's actual total bet 15 — the claim that both set it to
the player's resulting actual total bet, including when the chips cannot
cover the raise, is false for the Game path. -/
theorem C7_raise_current_bet_divergence :
    (Game.processAction ⟨[⟨0, 15, 0, 0, false, false, false⟩,
        ⟨1, 100, 10, 10, false, false, false⟩], 10, 10, 0, some 1, [1]⟩
      0 GameAction.RAISE 20 false).map (fun x => x.1.current_bet) = some 20 ∧
    (BettingManager.processRaise ⟨10, [], 10, [], [(1, 10)]⟩
        ⟨0, 15, 0, 0, false, false, false⟩ 20).map
      (fun x => x.2.1.current_bet) = some 15 ∧
    (BettingManager.processRaise ⟨10, [], 10, [], [(1, 10)]⟩
        ⟨0, 15, 0, 0, false, false, false⟩ 20).map
      (fun x => x.1.current_bet) = some 15 ∧
    (20 : Nat) ≠ 15 :=
  ⟨by decide, by decide, by decide, by decide⟩

/-- C7 (amended): under the raise preconditions (equal table bets, the
acting player can raise, the amount exceeds the table bet), the RAISE branch
of `Game.process_action` and `BettingManager.process_raise` either both fail
the same delegated `Player.bet` precondition, or both succeed charging the
same combined call-plus-raise amount `r`, adding `r` to their pots and
leaving the player in the same state; the manager sets the table bet to the
player's actual total bet while the game sets it to the requested amount,
and the two agree whenever the player's chips cover the full raise. -/
theorem C7_raise_game_vs_manager :
    ∀ (g : Game) (bm : BettingManager) (idx amount : Nat),
      bm.current_bet = g.current_bet →
      g.current_player = idx →
      g.canRaise idx = true →
      g.current_bet < amount →
      ((g.processAction idx GameAction.RAISE amount false = none ∧
          bm.processRaise (g.players.getD idx default) amount = none) ∨
        (∃ (g2 : Game) (bm2 : BettingManager) (p2 : Player) (r : Nat),
          g.processAction idx GameAction.RAISE amount false = some (g2, true) ∧
          bm.processRaise (g.players.getD idx default) amount = some (bm2, p2, r) ∧
          g2.pot = g.pot + r ∧
          bm2.main_pot = bm.main_pot + r ∧
          g2.players.getD idx default = p2 ∧
          bm2.current_bet = p2.current_bet ∧
          g2.current_bet = amount ∧
          (((g.players.getD idx default).current_bet ≤ g.current_bet ∧
              amount ≤ (g.players.getD idx default).current_bet
                + (g.players.getD idx default).chips) →
            g2.current_bet = bm2.current_bet))) := by
  intro g bm idx amount hcb hcp hcr hlt
  have hcr2 := hcr
  unfold Game.canRaise at hcr2
  rw [Bool.and_eq_true, Bool.and_eq_true, Bool.and_eq_true] at hcr2
  obtain ⟨⟨⟨hmem, hpos⟩, hact⟩, hchips⟩ := hcr2
  have hmem2 : idx ∈ g.getActivePlayers := of_decide_eq_true hmem
  have hpos2 : 0 < g.current_bet := of_decide_eq_true hpos
  have hidx : idx < g.players.length :=
    List.mem_range.mp (List.mem_filter.mp hmem2).1
  have hflags : (g.players.getD idx default).is_folded = false ∧
      (g.players.getD idx default).is_all_in = false ∧
      (g.players.getD idx default).is_sitting_out = false := by
    unfold Player.canAct at hact
    rw [Bool.and_eq_true, Bool.and_eq_true] at hact
    obtain ⟨⟨h1, h2⟩, h3⟩ := hact
    rw [Bool.not_eq_true'] at h1 h2 h3
    exact ⟨h1, h2, h3⟩
  have hcallPre : (g.players.getD idx default).callPre := ⟨hflags.1, hflags.2.2⟩
  have hne : ¬ idx ≠ g.current_player := fun hx => hx hcp.symm
  unfold Game.processAction BettingManager.processRaise
  rw [if_neg hne, if_neg (not_not_intro hmem2)]
  dsimp only
  rw [hcr]
  simp only [Bool.not_true]
  rw [if_neg Bool.false_ne_true, hcb,
    if_neg (by omega : ¬ g.current_bet = 0),
    if_neg (Nat.not_le.mpr hlt), if_neg (Nat.not_le.mpr hlt),
    if_neg (not_not_intro hcallPre), if_neg (not_not_intro hcallPre)]
  by_cases hbp : (((g.players.getD idx default).callOp g.current_bet).1).betPre
      (amount - g.current_bet)
  · right
    rw [if_neg (not_not_intro hbp), if_neg (not_not_intro hbp)]
    refine ⟨_, _, _, _, rfl, rfl, ?_, rfl, ?_, rfl, ?_, ?_⟩
    · rw [(finishAction_fields _ _).1]
    · rw [(finishAction_fields _ _).2.2]
      exact getD_set_self _ _ _ hidx
    · rw [(finishAction_fields _ _).2.1]
    · rintro ⟨hc1, hc2⟩
      rw [(finishAction_fields _ _).2.1]
      show amount
        = (((g.players.getD idx default).callOp g.current_bet).1.betOp
            (amount - g.current_bet)).1.current_bet
      simp only [Player.callOp, Player.betOp]
      omega
  · left
    rw [if_pos hbp, if_pos hbp]
    exact ⟨rfl, rfl⟩

theorem C7_witness :
    (Game.processAction ⟨[⟨0, 100, 0, 0, false, false, false⟩,
          ⟨1, 50, 10, 10, false, false, false⟩], 10, 10, 0, none, []⟩
        0 GameAction.RAISE 20 false = none ∧
      BettingManager.processRaise ⟨10, [], 10, [], []⟩
        (([⟨0, 100, 0, 0, false, false, false⟩,
          ⟨1, 50, 10, 10, false, false, false⟩] : List Player).getD 0 default)
        20 = none) ∨
    (∃ (g2 : Game) (bm2 : BettingManager) (p2 : Player) (r : Nat),
      Game.processAction ⟨[⟨0, 100, 0, 0, false, false, false⟩,
          ⟨1, 50, 10, 10, false, false, false⟩], 10, 10, 0, none, []⟩
        0 GameAction.RAISE 20 false = some (g2, true) ∧
      BettingManager.processRaise ⟨10, [], 10, [], []⟩
        (([⟨0, 100, 0, 0, false, false, false⟩,
          ⟨1, 50, 10, 10, false, false, false⟩] : List Player).getD 0 default)
        20 = some (bm2, p2, r) ∧
      g2.pot = 10 + r ∧
      bm2.main_pot = 10 + r ∧
      g2.players.getD 0 default = p2 ∧
      bm2.current_bet = p2.current_bet ∧
      g2.current_bet = 20 ∧
      (((([⟨0, 100, 0, 0, false, false, false⟩,
            ⟨1, 50, 10, 10, false, false, false⟩] : List Player).getD 0
              default).current_bet ≤ 10 ∧
          20 ≤ (([⟨0, 100, 0, 0, false, false, false⟩,
            ⟨1, 50, 10, 10, false, false, false⟩] : List Player).getD 0
              default).current_bet
            + (([⟨0, 100, 0, 0, false, false, false⟩,
              ⟨1, 50, 10, 10, false, false, false⟩] : List Player).getD 0
                default).chips) →
        g2.current_bet = bm2.current_bet)) :=
  C7_raise_game_vs_manager
    ⟨[⟨0, 100, 0, 0, false, false, false⟩, ⟨1, 50, 10, 10, false, false, false⟩],
      10, 10, 0, none, []⟩
    ⟨10, [], 10, [], []⟩ 0 20 rfl rfl (by decide) (by decide)

/-! ## C2: direct evaluation versus best-five enumeration -/

/-- C2 counterexample: for the 7-card hand As Ks Qs Js 9s 2h 3d the direct
evaluation does not agree with the minimum over the 21 five-card subsets:
the flush exists only inside a subset while the full hand is not
single-suited, so `evaluate_hand` under-detects it. -/
theorem C2_direct_eval_disagrees_with_best_five :
    ¬ (evaluate_hand [⟨12, 0⟩, ⟨11, 0⟩, ⟨10, 0⟩, ⟨9, 0⟩, ⟨7, 0⟩, ⟨0, 1⟩, ⟨1, 2⟩]
        = bestFiveScore [⟨12, 0⟩, ⟨11, 0⟩, ⟨10, 0⟩, ⟨9, 0⟩, ⟨7, 0⟩, ⟨0, 1⟩, ⟨1, 2⟩]) := by
  decide

/-- C2 (amended): the equivalence between direct evaluation of a 6–7 card
hand and the enumerative best-5 selection fails, in both directions.  On
As Ks Qs Js 9s 2h 3d direct evaluation is strictly worse (greater): it
returns the ace-high-card score while the best 5-card subset is the
ace-high flush with the same card ranks.  On the three-pair hand
As Ah Ks Kh Qs Qh direct evaluation is strictly better (smaller): every
rank is paired, so its two-pair score has no kicker component, while every
actual 5-card subset carries a kicker component. -/
theorem C2_best_five_beats_direct_eval :
    (bestFiveScore [⟨12, 0⟩, ⟨11, 0⟩, ⟨10, 0⟩, ⟨9, 0⟩, ⟨7, 0⟩, ⟨0, 1⟩, ⟨1, 2⟩]
        < evaluate_hand [⟨12, 0⟩, ⟨11, 0⟩, ⟨10, 0⟩, ⟨9, 0⟩, ⟨7, 0⟩, ⟨0, 1⟩, ⟨1, 2⟩] ∧
      evaluate_hand [⟨12, 0⟩, ⟨11, 0⟩, ⟨10, 0⟩, ⟨9, 0⟩, ⟨7, 0⟩, ⟨0, 1⟩, ⟨1, 2⟩]
        = buildScore 9 [0, 1, 2, 3, 5] ∧
      bestFiveScore [⟨12, 0⟩, ⟨11, 0⟩, ⟨10, 0⟩, ⟨9, 0⟩, ⟨7, 0⟩, ⟨0, 1⟩, ⟨1, 2⟩]
        = buildScore 4 [0, 1, 2, 3, 5]) ∧
    (evaluate_hand [⟨12, 0⟩, ⟨12, 1⟩, ⟨11, 0⟩, ⟨11, 1⟩, ⟨10, 0⟩, ⟨10, 1⟩]
        < bestFiveScore [⟨12, 0⟩, ⟨12, 1⟩, ⟨11, 0⟩, ⟨11, 1⟩, ⟨10, 0⟩, ⟨10, 1⟩] ∧
      evaluate_hand [⟨12, 0⟩, ⟨12, 1⟩, ⟨11, 0⟩, ⟨11, 1⟩, ⟨10, 0⟩, ⟨10, 1⟩]
        = buildScore 7 [0, 1] ∧
      bestFiveScore [⟨12, 0⟩, ⟨12, 1⟩, ⟨11, 0⟩, ⟨11, 1⟩, ⟨10, 0⟩, ⟨10, 1⟩]
        = buildScore 7 [0, 1, 2]) :=
  ⟨⟨by decide, by decide, by decide⟩, ⟨by decide, by decide, by decide⟩⟩

end HoldemHQ
